import Mathlib

/-!
Verification of the `@smockle/matrix` package (src/src/index.ts).

The JavaScript `Matrix` object is modelled by its backing value `__value`,
which is either a flat array of numbers (`number[]`) or an array of arrays
(`number[][]`).  Numbers are modelled as integers (every example in the
repository's tests and documentation is an integer).  Functions that can
throw in JavaScript return `Except JsErr _`; error kinds distinguish the
constructor's shape error, the not-addable / not-multipliable errors, and
"TypeError from touching undefined" crashes.
-/

namespace SmockleMatrix

/-- Kinds of runtime errors the JavaScript code can raise.
`invalidShape` is the constructor's
"Matrix must be a number or array of numbers" TypeError;
`notAddable` and `notMultipliable` are the errors raised by `Add` and
`Multiply`; `undefinedAccess` stands for the TypeErrors JavaScript raises
when it reads a property of `undefined` (e.g. `undefined.length`) or calls
a method that does not exist (e.g. `.map` on a number). -/
inductive JsErr where
  | invalidShape
  | notAddable
  | notMultipliable
  | undefinedAccess
  deriving DecidableEq, Repr

/-- `__value` of a `Matrix`: a flat array (`number[]`) or a nested array
(`number[][]`).  Note that in JavaScript the empty array is a single value;
`flat []` and `nested []` both model it, and every definition below treats
them identically (both have `__value[0] === undefined` and length `0`). -/
inductive MValue where
  | flat : List Int → MValue
  | nested : List (List Int) → MValue
  deriving DecidableEq, Repr

open MValue JsErr

instance {ε α : Type} [DecidableEq ε] [DecidableEq α] : DecidableEq (Except ε α) :=
  fun a b =>
  match a, b with
  | .error e, .error f =>
    if h : e = f then .isTrue (congrArg Except.error h)
    else .isFalse (fun hc => h (Except.error.inj hc))
  | .ok x, .ok y =>
    if h : x = y then .isTrue (congrArg Except.ok h)
    else .isFalse (fun hc => h (Except.ok.inj hc))
  | .error _, .ok _ => .isFalse (fun hc => Except.noConfusion hc)
  | .ok _, .error _ => .isFalse (fun hc => Except.noConfusion hc)

/-- The `Matrix` constructor (index.ts lines 44-63).
A flat value never trips either check: `x[0]` is a number (or `undefined`),
so `Array.isArray(x[0])` is false and `firstRowLength` is `0`.
For a nested value, `x[0]` is an array (when it exists), so a length-1
outer array throws ("extra nesting"), and when the first row is nonempty
(`firstRowLength > 0`) any row of a different length throws
("uneven rows"). On success `__value` is the argument itself, unchanged. -/
def construct : MValue → Except JsErr MValue
  | .flat l => .ok (.flat l)
  | .nested rows =>
    if rows.length = 1 then .error .invalidShape
    else
      let firstRowLength := (rows.headD []).length
      if 0 < firstRowLength ∧ rows.any (fun row => row.length ≠ firstRowLength)
      then .error .invalidShape
      else .ok (.nested rows)

/-- `Matrix.prototype.countRows` (lines 183-186):
`typeof __value[0] === "number"` gives `1` (a nonempty flat value);
otherwise the outer length is returned, which is `0` for the empty array
and the number of rows for a nested value. -/
def countRows : MValue → Nat
  | .flat [] => 0
  | .flat (_ :: _) => 1
  | .nested rows => rows.length

/-- `Matrix.prototype.countColumns` (lines 193-196):
for a nonempty flat value, its length; for a nested value,
`__value[0].length`.  For the empty array, `__value[0]` is `undefined`
and reading its `.length` raises a TypeError. -/
def countColumns : MValue → Except JsErr Nat
  | .flat [] => .error .undefinedAccess
  | .flat (a :: l) => .ok (a :: l).length
  | .nested [] => .error .undefinedAccess
  | .nested (r :: _) => .ok r.length

/-- `isMatrix1D` (lines 30-32): `countRows() === 1`. -/
def isMatrix1D (m : MValue) : Bool := countRows m = 1

/-- `Matrix.addable` (lines 72-76):
`x.countRows() === y.countRows() && x.countColumns() === y.countColumns()`,
with `&&` short-circuiting, so `countColumns` is only evaluated (and can
only crash) when the row counts agree. -/
def addable (x y : MValue) : Except JsErr Bool :=
  if countRows x = countRows y then
    match countColumns x with
    | .error e => .error e
    | .ok cx =>
      match countColumns y with
      | .error e => .error e
      | .ok cy => .ok (cx = cy)
  else .ok false

/-- `Matrix.multipliable` (lines 105-107):
`x.countColumns() === y.countRows()`. -/
def multipliable (x y : MValue) : Except JsErr Bool :=
  match countColumns x with
  | .error e => .error e
  | .ok cx => .ok (cx = countRows y)

/-- lodash `unzip`: the "transpose" of a list of rows.  Its length is the
longest row length, and entry `(i, j)` is `rows[j][i]`, which in JavaScript
is `undefined` (here `none`) when row `j` is shorter than row `i`. -/
def maxLen (rows : List (List Int)) : Nat :=
  rows.foldl (fun m row => max m row.length) 0

/-- lodash `unzip` (see `maxLen`). -/
def unzip (rows : List (List Int)) : List (List (Option Int)) :=
  (List.range (maxLen rows)).map (fun i => rows.map (fun row => row.get? i))

/-- The `reduce` inside `innerproduct` (lines 124-127):
`[..._x].reduce((z, _z, j) => z + _z * _y[j], 0)`, traversing `_x` left to
right with the accumulator seeded at `0` and pairing index `j` of `_x`
with index `j` of the column `_y`; modelled as a lockstep recursion.
When `_y[j]` is `undefined` (the column is missing an entry, or `j` runs
past its end) the JavaScript sum becomes `NaN`; that case is modelled as an
error value — no claim reaches it. -/
def ipFold : Int → List Int → List (Option Int) → Except JsErr Int
  | z, [], _ => .ok z
  | z, a :: as, some v :: rest => ipFold (z + a * v) as rest
  | _, _ :: _, none :: _ => .error .undefinedAccess
  | _, _ :: _, [] => .error .undefinedAccess

/-- The columns `innerproduct` extracts from `y` (lines 118-123):
`unzip([y.__value])` when `isMatrix1D(y)`, else `unzip(y.__value)`.
A nested `__value` with exactly one row never reaches this code: the
constructor rejects it, so the 1-row case concerns a flat value only.
A flat value in the else branch is the empty array, and `unzip([]) = []`. -/
def yColumns (y : MValue) : List (List (Option Int)) :=
  if countRows y = 1 then
    match y with
    | .flat l => unzip [l]
    | .nested rows => unzip rows
  else
    match y with
    | .flat _ => unzip []
    | .nested rows => unzip rows

/-- `innerproduct(x, y, i)` (lines 116-128); `xv` is `x.__value` of the
`Matrix1D` argument `x`.  `_y` is column `i` of `y`; when `i` is out of
range `_y` is `undefined`, so the reduce crashes on `_y[j]` at the first
step — unless `_x` is empty, in which case the reduce never runs and the
seed `0` is returned. -/
def innerproduct (xv : List Int) (y : MValue) (i : Nat) : Except JsErr Int :=
  match (yColumns y).get? i with
  | none => if xv.isEmpty then .ok 0 else .error .undefinedAccess
  | some col => ipFold 0 xv col

/-- `Array.prototype.map` with the element index, for callbacks that can
throw: evaluated left to right, aborting at the first error (a thrown
exception propagates out of `map`). -/
def mapWithIdxM (f : Nat → α → Except JsErr β) : Nat → List α → Except JsErr (List β)
  | _, [] => .ok []
  | i, a :: as => do
    let b ← f i a
    let bs ← mapWithIdxM f (i + 1) as
    .ok (b :: bs)

/-- One row of the 2D branch of `Multiply` (lines 153-160): the callback
`(_z, i) => { const _x = Matrix(x.__value[i]); if (isMatrix1D(_x)) return
_z.map((_, j) => innerproduct(_x, y, j)); }` applied to template row
`_zrow` at index `i`.
`xrow` is `x.__value[i]`; `Matrix(xrow)` always constructs (flat), and is
`Matrix1D` exactly when `xrow` is nonempty.  When `xrow` is empty the
`if` fails and the callback returns `undefined` for this row (modelled as
an error); this cannot happen for a constructor-accepted `x` of
multipliable shape, whose rows all have length `countRows(y) ≥ 1`. -/
def multiplyRow (y : MValue) (xrow : List Int) (_zrow : List Int) :
    Except JsErr (List Int) :=
  if xrow.isEmpty then .error .undefinedAccess
  else mapWithIdxM (fun j _ => innerproduct xrow y j) 0 _zrow

/-- `Multiply` (lines 137-162).  After the `multipliable` guard:
when `x` is `Matrix1D` (a nonempty flat value), the result is
`Matrix([0]).map((_z, i) => innerproduct(x, y, i))` — the map runs over the
single-element template `[0]`, so only `i = 0` is computed;
otherwise a template with `x.countRows()` copies of a row of
`y.countColumns()` zeroes is constructed and mapped row by row.
The 1-row-nested and flat cases of the 2D branch are unreachable
(the constructor rejects a 1-row nested value; a flat `x` with
`countRows ≠ 1` is the empty array, on which `multipliable` already
crashed); they are modelled as errors. -/
def Multiply (x y : MValue) : Except JsErr MValue :=
  match multipliable x y with
  | .error e => .error e
  | .ok false => .error .notMultipliable
  | .ok true =>
    if countRows x = 1 then
      match x with
      | .flat xv => do
        let z ← innerproduct xv y 0
        construct (.flat [z])
      | .nested _ => .error .undefinedAccess
    else
      match countColumns y with
      | .error e => .error e
      | .ok yc =>
        let template := List.replicate (countRows x) (List.replicate yc (0 : Int))
        match construct (.nested template) with
        | .error e => .error e
        | .ok _ =>
          match x with
          | .flat _ => .error .undefinedAccess
          | .nested xrows => do
            let rows ← mapWithIdxM
              (fun i _zrow =>
                match xrows.get? i with
                | some xrow => multiplyRow y xrow _zrow
                | none => .error .undefinedAccess)
              0 template
            construct (.nested rows)

/-- The term added to `column` in `Add`'s inner callback (line 92):
`Array.isArray(y.__value[i]) ? y.__value[i][j] : 0`.  A flat `y` or an
out-of-range `i` gives a non-array (`number` or `undefined`), hence `0`;
an in-range row with `j` out of range gives `undefined`, making the sum
`NaN` — modelled as an error, and outside every claim. -/
def addEntry (y : MValue) (i j : Nat) : Except JsErr Int :=
  match y with
  | .flat _ => .ok 0
  | .nested yrows =>
    match yrows.get? i with
    | none => .ok 0
    | some yrow =>
      match yrow.get? j with
      | some v => .ok v
      | none => .error .undefinedAccess

/-- `Add` (lines 86-96).  After the `addable` guard the code runs
`x.map((row, i) => row.map((column, j) => column + ...))`.
For a nonempty flat `x` (`Matrix1D`), `map` feeds each scalar to the outer
callback, which immediately calls `.map` on a number — a TypeError.
(The empty flat value takes the 2D path over zero rows, producing
`Matrix([])`; unreachable here since `addable` already crashed on it.)
For a nested `x`, each row is mapped elementwise and the mapped rows are
passed back through the `Matrix` constructor. -/
def Add (x y : MValue) : Except JsErr MValue :=
  match addable x y with
  | .error e => .error e
  | .ok false => .error .notAddable
  | .ok true =>
    match x with
    | .flat [] => construct (.flat [])
    | .flat (_ :: _) => .error .undefinedAccess
    | .nested xrows => do
      let rows ← mapWithIdxM
        (fun i row =>
          mapWithIdxM
            (fun j c => do
              let v ← addEntry y i j
              pure (c + v))
            0 row)
        0 xrows
      construct (.nested rows)

/-- Rebuild integer rows from `unzip` output.  JavaScript would happily
build a matrix containing `undefined` entries (possible only when the
rows were uneven, which no claim reaches); that case is modelled as an
error. -/
def matrixOfColumns (cols : List (List (Option Int))) : Except JsErr MValue :=
  match cols.mapM (fun col => col.mapM id) with
  | some rows => construct (.nested rows)
  | none => .error .undefinedAccess

/-- `Matrix.prototype.transpose` (lines 255-261):
`Matrix(unzip([this.__value]))` when `isMatrix1D(this)`, else
`Matrix(unzip(this.__value))`.  As in `yColumns`, the 1-row case concerns
a flat value only, and a flat value in the else branch is the empty
array. -/
def transpose (m : MValue) : Except JsErr MValue :=
  if countRows m = 1 then
    match m with
    | .flat l => matrixOfColumns (unzip [l])
    | .nested rows => matrixOfColumns (unzip rows)
  else
    match m with
    | .flat _ => matrixOfColumns (unzip [])
    | .nested rows => matrixOfColumns (unzip rows)

/-- `Matrix.prototype.valueOf` (lines 296-298): returns `__value`. -/
def valueOf (m : MValue) : MValue := m

/-- JavaScript template-literal conversion of a number to text for the
integers handled here: the decimal digits, with a leading minus sign for
negative values, exactly as Lean prints an `Int`. -/
def intStr (x : Int) : String := toString x

/-- `Array.prototype.join(sep)` on an array of strings. -/
def joinWith (sep : String) : List String → String
  | [] => ""
  | [s] => s
  | s :: rest => s ++ sep ++ joinWith sep rest

/-- lodash `padStart(s, n)` with the default pad character: left-pads `s`
with spaces to length `n` (unchanged when `s` is already at least that
long). -/
def padStart (s : String) (n : Nat) : String :=
  if n ≤ s.length then s else String.mk (List.replicate (n - s.length) ' ') ++ s

/-- `Array.prototype.map` with the element index (pure callback). -/
def mapWithIndex (f : Nat → α → β) : Nat → List α → List β
  | _, [] => []
  | i, a :: as => f i a :: mapWithIndex f (i + 1) as

/-- The text width the padding reduce sees for one `unzip` entry:
`` `${x}`.length ``, where a missing (`undefined`) entry stringifies as
`"undefined"` (width 9). -/
def entryWidth : Option Int → Nat
  | some v => (intStr v).length
  | none => ("undefined" : String).length

/-- `.replace(/]\[/g, "]\n[")` (line 323) on the character list of a
string: every (non-overlapping, left-to-right) occurrence of `][` becomes
`]` `\n` `[`. -/
def replaceBreak : List Char → List Char
  | [] => []
  | [c] => [c]
  | c :: c2 :: rest =>
    if c = ']' ∧ c2 = '[' then ']' :: '\n' :: '[' :: replaceBreak rest
    else c :: replaceBreak (c2 :: rest)

/-- The custom-inspect formatter (lines 305-325).
A `Matrix1D` (nonempty flat value) renders as `[ v1 v2 ... ]`, its
elements joined by single spaces.  Otherwise `padding[i]` is the widest
text in column `i` of the `unzip`-transposed value
(`column.reduce((length, x) => Math.max(String(x).length, length), 0)`),
each row renders as `[ ... ]` with entry `i` left-padded to `padding[i]`
(an out-of-range `padding[i]` is `undefined`, which lodash `padStart`
treats as no padding), the row strings are concatenated by the reduce
seeded with `""`, and the final `.replace` inserts the newlines.
The empty array renders as `""` (zero rows); a 1-row nested value cannot
reach this code, and its branch mirrors the JavaScript `join`, which
stringifies each row with commas. -/
def render (m : MValue) : String :=
  if countRows m = 1 then
    match m with
    | .flat l => "[ " ++ joinWith " " (l.map intStr) ++ " ]"
    | .nested rows =>
      "[ " ++ joinWith " " (rows.map (fun r => joinWith "," (r.map intStr))) ++ " ]"
  else
    match m with
    | .flat _ => ""
    | .nested rows =>
      let padding : List Nat :=
        (unzip rows).map (fun column =>
          column.foldl (fun length x => max (entryWidth x) length) 0)
      let body : String :=
        rows.foldl
          (fun output row =>
            output ++
              ("[ " ++
                joinWith " "
                  (mapWithIndex (fun i x => padStart (intStr x) (padding.getD i 0)) 0 row) ++
                " ]"))
          ""
      String.mk (replaceBreak body.data)

/-! Specification-side definitions, used to state the claims. -/

/-- The inner product of two sequences as the specification describes it:
a left-to-right sum of pairwise products with the accumulator seeded at
zero. -/
def dotSpec (r c : List Int) : Int :=
  (r.zip c).foldl (fun z p => z + p.1 * p.2) 0

/-- Column `j` of a matrix value: for a flat row vector, the single entry
`j` (a length-1 column); for a nested value, entry `j` of every row. -/
def specCol (y : MValue) (j : Nat) : List Int :=
  match y with
  | .flat l => [l.getD j 0]
  | .nested rows => rows.map (fun r => r.getD j 0)

/-- The widest decimal text in column `j` of a rectangular matrix. -/
def colWidthSpec (rows : List (List Int)) (j : Nat) : Nat :=
  rows.foldl (fun m r => max (intStr (r.getD j 0)).length m) 0

/-- Newline-separated concatenation of character lists (the character-level
form of joining lines with a newline). -/
def sepLines : List (List Char) → List Char
  | [] => []
  | [l] => l
  | l :: rest => l ++ '\n' :: sepLines rest

/-- The character list of one rendered row: `[ `, the row's text, ` ]`. -/
def blockCh (inn : List Char) : List Char :=
  '[' :: ' ' :: (inn ++ [' ', ']'])

/-! Theorems. -/

/-- C9: construction stores the given backing value unchanged, so
`RawValue(Construct(x)) = x` for every accepted input. -/
theorem C9_construct_valueOf_identity (x v : MValue) (h : construct x = .ok v) :
    valueOf v = x := by
  cases x with
  | flat l => simpa [construct, valueOf] using h.symm
  | nested rows =>
    simp only [construct] at h
    split_ifs at h
    simp_all [valueOf]

/-- `countColumns` succeeds on every value with at least one row. -/
theorem countColumns_ok_of_pos {m : MValue} (h : 0 < countRows m) :
    ∃ c, countColumns m = .ok c := by
  cases m with
  | flat l => cases l with
    | nil => simp [countRows] at h
    | cons a l => exact ⟨l.length + 1, rfl⟩
  | nested rows => cases rows with
    | nil => simp [countRows] at h
    | cons r rows => exact ⟨r.length, rfl⟩

/-- Witness for C9 at the concrete input `[3]`. -/
theorem C9_construct_valueOf_identity_witness :
    valueOf (.flat [3]) = MValue.flat [3] :=
  C9_construct_valueOf_identity (.flat [3]) (.flat [3]) rfl

/-- C10 counterexample: `countColumns()` on the freshly constructed empty
matrix does not return `0`; it crashes reading `.length` of `undefined`. -/
theorem C10_countColumns_empty_counterexample :
    countColumns (.flat []) = .error .undefinedAccess := rfl

/-- C10 (amended): the constructor accepts `[]` and the result has
`countRows() = 0` (so publicly constructed matrices do not all have at
least one row), but `countColumns()` on it raises a TypeError instead of
returning a number. -/
theorem C10_empty_matrix :
    construct (.flat []) = .ok (.flat []) ∧ countRows (.flat []) = 0 ∧
      ∀ n : Nat, countColumns (.flat []) ≠ .ok n := by
  refine ⟨rfl, rfl, fun n h => ?_⟩
  simp [countColumns] at h

/-- Witness for C10 at the concrete count `0`. -/
theorem C10_empty_matrix_witness : countColumns (.flat []) ≠ .ok 0 :=
  C10_empty_matrix.2.2 0

/-- C5 counterexample: `[[],[1,2]]` has two rows of different lengths
(0 and 2), yet the constructor accepts it — the uneven-rows check only
runs when the first row is nonempty. -/
theorem C5_uneven_accepted_counterexample :
    construct (.nested [[], [1, 2]]) = .ok (.nested [[], [1, 2]]) ∧
      ([] : List Int).length ≠ ([1, 2] : List Int).length := by decide

/-- C5 (amended): construction fails with `InvalidShape` exactly when the
outer sequence has exactly one element that is itself a nested sequence,
or when the first row is nonempty and some row's length differs from the
first row's length (uneven inputs whose first row is empty are accepted);
flat inputs are always accepted; it accepts `[1]` and `[[1],[2]]` and
rejects `[[1,2]]` and `[[1,2],[3],[4,5]]`. -/
theorem C5_invalid_shape_characterization :
    (∀ rows : List (List Int),
      construct (.nested rows) = .error .invalidShape ↔
        (rows.length = 1 ∨
          (0 < (rows.headD []).length ∧
            ∃ r ∈ rows, r.length ≠ (rows.headD []).length))) ∧
    (∀ l : List Int, construct (.flat l) = .ok (.flat l)) ∧
    construct (.flat [1]) = .ok (.flat [1]) ∧
    construct (.nested [[1], [2]]) = .ok (.nested [[1], [2]]) ∧
    construct (.nested [[1, 2]]) = .error .invalidShape ∧
    construct (.nested [[1, 2], [3], [4, 5]]) = .error .invalidShape := by
  refine ⟨fun rows => ?_, fun l => rfl, by decide, by decide, by decide, by decide⟩
  simp only [construct]
  split_ifs with h1 h2
  · simp [h1]
  · simp only [h1, false_or]
    simpa using h2
  · simp only [h1, false_or]
    constructor
    · intro h; cases h
    · intro h; exact absurd h (by simpa using h2)

/-- Witness for C5: the characterization applied at the concrete input
`[[7,8]]` (redundant single-row nesting). -/
theorem C5_invalid_shape_characterization_witness :
    construct (.nested [[7, 8]]) = .error .invalidShape :=
  (C5_invalid_shape_characterization.1 [[7, 8]]).mpr (Or.inl rfl)

/-- C1: the row-vector branch of `Multiply` maps over the one-element
template `Matrix([0])`, so for `x = [1,2]` and `y = [[1,2],[3,4]]`
(shape-compatible, `countColumns(y) = 2`) it returns the single-entry row
vector `[7]` — only the inner product with column 0 — instead of a row
vector with `countColumns(y)` entries. -/
theorem C1_row_vector_multiply_truncated :
    Multiply (.flat [1, 2]) (.nested [[1, 2], [3, 4]]) = .ok (.flat [7]) ∧
      countColumns (.nested [[1, 2], [3, 4]]) = .ok 2 := by decide

/-- C2: `Transpose([1,2]) = [[1],[2]]` and
`Transpose([[1,2,3],[4,5,6]]) = [[1,4],[2,5],[3,6]]` hold, but the
round trip fails at `M = [1,2]`: transposing `[[1],[2]]` feeds the
single-row nested array `[[1,2]]` back into the constructor, which raises
`InvalidShape`, so `Transpose(Transpose([1,2]))` throws instead of
returning `[1,2]`. -/
theorem C2_transpose_roundtrip_fails :
    transpose (.flat [1, 2]) = .ok (.nested [[1], [2]]) ∧
      transpose (.nested [[1], [2]]) = .error .invalidShape ∧
      transpose (.nested [[1, 2, 3], [4, 5, 6]]) = .ok (.nested [[1, 4], [2, 5], [3, 6]]) := by
  decide

/-- C3: `Transpose` does have a failure path: on the 1×1 row vector `[5]`
(and on the 2×1 column matrix `[[3],[4]]`) the transposed value is a
single-row nested array, which the constructor rejects with
`InvalidShape`. -/
theorem C3_transpose_throws_on_one_column :
    transpose (.flat [5]) = .error .invalidShape ∧
      transpose (.nested [[3], [4]]) = .error .invalidShape := by decide

/-- C4: on two addable row vectors `[1,2]` and `[3,4]` the code crashes —
`map` feeds each scalar to a callback that calls `.map` on it — instead of
returning the elementwise sum `[4,6]`; the 2×2 example from the
specification does hold. -/
theorem C4_add_row_vectors_crashes :
    Add (.flat [1, 2]) (.flat [3, 4]) = .error .undefinedAccess ∧
      addable (.flat [1, 2]) (.flat [3, 4]) = .ok true ∧
      Add (.nested [[1, 2], [3, 4]]) (.nested [[5, 6], [7, 8]]) =
        .ok (.nested [[6, 8], [10, 12]]) := by decide

/-- C7: for valid matrices (constructor-accepted, and nonempty as the
specification's data model requires), `Addable` and `Multipliable` only
report a boolean and never raise; whenever `Addable` reports false, `Add`
raises `NotAddable`, and whenever `Multipliable` reports false, `Multiply`
raises `NotMultipliable` — in particular neither returns a matrix on such
shape-incompatible inputs. -/
theorem C7_shape_errors (x y : MValue)
    (_hx : construct x = .ok x) (_hy : construct y = .ok y)
    (hx1 : 0 < countRows x) (hy1 : 0 < countRows y) :
    (∃ b, addable x y = .ok b) ∧ (∃ b, multipliable x y = .ok b) ∧
      (addable x y = .ok false → Add x y = .error .notAddable) ∧
      (multipliable x y = .ok false → Multiply x y = .error .notMultipliable) := by
  obtain ⟨cx, hcx⟩ := countColumns_ok_of_pos hx1
  obtain ⟨cy, hcy⟩ := countColumns_ok_of_pos hy1
  refine ⟨?_, ?_, ?_, ?_⟩
  · by_cases hr : countRows x = countRows y
    · exact ⟨decide (cx = cy), by simp [addable, hr, hcx, hcy]⟩
    · exact ⟨false, by simp [addable, hr]⟩
  · exact ⟨decide (cx = countRows y), by simp [multipliable, hcx]⟩
  · intro h
    simp only [Add, h]
  · intro h
    simp only [Multiply, h]

/-- Witness for C7: `[1,2]` (1×2) and `[[1,2],[3,4]]` (2×2) are valid,
not addable, and `Add` raises `NotAddable` on them. -/
theorem C7_shape_errors_witness :
    Add (.flat [1, 2]) (.nested [[1, 2], [3, 4]]) = .error .notAddable :=
  (C7_shape_errors (.flat [1, 2]) (.nested [[1, 2], [3, 4]])
    rfl (by decide) (by decide) (by decide)).2.2.1 (by decide)

/-! Helper lemmas for the general multiplication theorem. -/

theorem get?_eq_some_getD {α : Type} (d : α) :
    ∀ (l : List α) (j : Nat), j < l.length → l.get? j = some (l.getD j d) := by
  intro l
  induction l with
  | nil => intro j h; simp at h
  | cons a l ih =>
    intro j h
    cases j with
    | zero => rfl
    | succ j => exact ih j (by simpa using h)

theorem foldl_max_uniform (c : Nat) :
    ∀ (rows : List (List Int)) (a : Nat), rows ≠ [] →
      (∀ r ∈ rows, r.length = c) →
      rows.foldl (fun m row => max m row.length) a = max a c := by
  intro rows
  induction rows with
  | nil => intro a h; exact absurd rfl h
  | cons r rows ih =>
    intro a _ hu
    have hr : r.length = c := hu r (List.mem_cons_self r rows)
    cases rows with
    | nil => simp [hr]
    | cons r2 rows2 =>
      have := ih (max a r.length) (by simp)
        (fun q hq => hu q (List.mem_cons_of_mem r hq))
      simp only [List.foldl_cons] at this ⊢
      rw [this, hr, max_assoc, max_self]

theorem maxLen_uniform {rows : List (List Int)} {c : Nat} (h0 : rows ≠ [])
    (hu : ∀ r ∈ rows, r.length = c) : maxLen rows = c := by
  unfold maxLen
  rw [foldl_max_uniform c rows 0 h0 hu]
  exact Nat.max_eq_right (Nat.zero_le c)

theorem unzip_get_uniform {rows : List (List Int)} {c j : Nat} (h0 : rows ≠ [])
    (hu : ∀ r ∈ rows, r.length = c) (hj : j < c) :
    (unzip rows).get? j = some ((rows.map (fun r => r.getD j 0)).map some) := by
  unfold unzip
  rw [List.get?_map]
  rw [List.get?_range (by rwa [maxLen_uniform h0 hu])]
  simp only [Option.map_some', Option.some.injEq, List.map_map]
  apply List.map_congr_left
  intro r hr
  exact get?_eq_some_getD 0 r j (by rw [hu r hr]; exact hj)

theorem ipFold_map_some :
    ∀ (xs cs : List Int) (z : Int), xs.length ≤ cs.length →
      ipFold z xs (cs.map some) =
        .ok ((xs.zip cs).foldl (fun a p => a + p.1 * p.2) z) := by
  intro xs
  induction xs with
  | nil => intro cs z _; rfl
  | cons a as ih =>
    intro cs z h
    cases cs with
    | nil => simp at h
    | cons c cs =>
      simp only [List.map_cons, ipFold, List.zip_cons_cons, List.foldl_cons]
      exact ih cs (z + a * c) (by simpa using h)

theorem innerproduct_flat {xv l : List Int} {j : Nat} (hl : l ≠ [])
    (hxv : xv.length ≤ 1) (hj : j < l.length) :
    innerproduct xv (.flat l) j = .ok (dotSpec xv (specCol (.flat l) j)) := by
  obtain ⟨a, l', rfl⟩ : ∃ a l', l = a :: l' := by
    cases l with
    | nil => exact absurd rfl hl
    | cons a l' => exact ⟨a, l', rfl⟩
  have hcols : yColumns (.flat (a :: l')) = unzip [a :: l'] := by
    simp [yColumns, countRows]
  have hget : (unzip [a :: l']).get? j =
      some (([(a :: l').getD j 0]).map some) := by
    have := unzip_get_uniform
      (show ([a :: l'] : List (List Int)) ≠ [] by simp)
      (show ∀ r ∈ [a :: l'], r.length = (a :: l').length by simp) hj
    simpa using this
  simp only [innerproduct, hcols, hget]
  rw [ipFold_map_some xv [(a :: l').getD j 0] 0 (by simpa using hxv)]
  rfl

theorem innerproduct_nested {xv : List Int} {yrows : List (List Int)} {c j : Nat}
    (h0 : yrows ≠ []) (hu : ∀ r ∈ yrows, r.length = c) (hj : j < c)
    (hx : xv.length ≤ yrows.length) :
    innerproduct xv (.nested yrows) j =
      .ok (dotSpec xv (specCol (.nested yrows) j)) := by
  have hcols : yColumns (.nested yrows) = unzip yrows := by
    unfold yColumns
    split_ifs <;> rfl
  have hget := unzip_get_uniform h0 hu hj
  simp only [innerproduct, hcols, hget]
  rw [ipFold_map_some xv (yrows.map (fun r => r.getD j 0)) 0
    (by simpa using hx)]
  rfl

theorem mapWithIdxM_replicate {α β : Type} (f : Nat → α → Except JsErr β)
    (g : Nat → β) (a : α) :
    ∀ (k i₀ : Nat), (∀ i, i₀ ≤ i → i < i₀ + k → f i a = .ok (g i)) →
      mapWithIdxM f i₀ (List.replicate k a) = .ok ((List.range' i₀ k).map g) := by
  intro k
  induction k with
  | zero => intro i₀ _; rfl
  | succ k ih =>
    intro i₀ h
    have h0 : f i₀ a = .ok (g i₀) := h i₀ (Nat.le_refl _) (by omega)
    have hrest := ih (i₀ + 1) (fun i h1 h2 => h i (by omega) (by omega))
    simp only [List.replicate_succ, mapWithIdxM, h0, hrest, List.range',
      List.map_cons]
    rfl

theorem range_map_getD {α β : Type} (d : α) (h : α → β) :
    ∀ l : List α,
      (List.range l.length).map (fun i => h (l.getD i d)) = l.map h := by
  intro l
  induction l with
  | nil => rfl
  | cons a l ih =>
    simp only [List.length_cons, List.range_succ_eq_map, List.map_cons,
      List.getD_cons_zero, List.map_map]
    refine congrArg (h a :: ·) ?_
    calc (List.range l.length).map ((fun i => h ((a :: l).getD i d)) ∘ Nat.succ)
        = (List.range l.length).map (fun i => h (l.getD i d)) := by
          apply List.map_congr_left; intro i _; rfl
      _ = l.map h := ih

theorem construct_ok_of_uniform {rows : List (List Int)} (c : Nat)
    (h1 : rows.length ≠ 1) (hu : ∀ r ∈ rows, r.length = c) :
    construct (.nested rows) = .ok (.nested rows) := by
  simp only [construct]
  rw [if_neg h1, if_neg]
  rintro ⟨hpos, hany⟩
  rw [List.any_eq_true] at hany
  obtain ⟨r, hr, hne⟩ := hany
  cases rows with
  | nil => simp at hr
  | cons r0 rows' =>
    have h0 : r0.length = c := hu r0 (List.mem_cons_self r0 rows')
    have hrc : r.length = c := hu r hr
    simp only [List.headD_cons, decide_eq_true_eq] at hne
    exact hne (hrc.trans h0.symm)

/-- C6: for every constructor-accepted rectangular `x` with at least two
rows and every constructor-accepted `y` whose column count is defined and
with `countColumns(x) = countRows(y)`, `Multiply(x, y)` returns the matrix
with `countRows(x)` rows and `countColumns(y)` columns whose cell `(i, j)`
is the left-to-right, zero-seeded sum over `k` of `x[i][k] * y[k][j]`;
both concrete examples of the specification evaluate as claimed. -/
theorem C6_rectangular_multiply :
    (∀ (xrows : List (List Int)) (y : MValue) (yc : Nat),
      construct (.nested xrows) = .ok (.nested xrows) →
      2 ≤ xrows.length →
      construct y = .ok y →
      countColumns y = .ok yc →
      multipliable (.nested xrows) y = .ok true →
      Multiply (.nested xrows) y =
        .ok (.nested (xrows.map (fun r =>
          (List.range yc).map (fun j => dotSpec r (specCol y j)))))) ∧
    Multiply (.nested [[1, 2], [3, 4]]) (.nested [[5, 6], [7, 8]]) =
      .ok (.nested [[19, 22], [43, 50]]) ∧
    Multiply (.nested [[1, 9, 7], [8, 1, 2]])
        (.nested [[3, 2, 1, 5], [5, 4, 7, 3], [6, 9, 6, 8]]) =
      .ok (.nested [[90, 101, 106, 88], [41, 38, 27, 59]]) := by
  refine ⟨?_, by decide, by decide⟩
  intro xrows y yc hx h2 hy hyc hm
  obtain ⟨x0, xrest, rfl⟩ : ∃ x0 xrest, xrows = x0 :: xrest := by
    cases xrows with
    | nil => simp at h2
    | cons r rs => exact ⟨r, rs, rfl⟩
  have hcx : countColumns (.nested (x0 :: xrest)) = .ok x0.length := rfl
  have hNrows : x0.length = countRows y := by
    simp only [multipliable, hcx] at hm
    simpa using hm
  -- y is nonempty
  have hypos : 0 < countRows y := by
    cases y with
    | flat l =>
      cases l with
      | nil => simp [countColumns] at hyc
      | cons a l => simp [countRows]
    | nested rows =>
      cases rows with
      | nil => simp [countColumns] at hyc
      | cons r rows => simp [countRows]
  have hNpos : 0 < x0.length := hNrows ▸ hypos
  -- x is uniform: every row has length x0.length
  have hxu : ∀ r ∈ x0 :: xrest, r.length = x0.length := by
    simp only [construct] at hx
    split_ifs at hx with hlen hbad
    intro r hr
    by_contra hne
    refine hbad ⟨?_, List.any_eq_true.mpr ⟨r, hr, ?_⟩⟩
    · simpa using hNpos
    · simpa using hne
  -- each innerproduct with a row of x succeeds
  have hip : ∀ r ∈ x0 :: xrest, ∀ j < yc,
      innerproduct r y j = .ok (dotSpec r (specCol y j)) := by
    intro r hr j hj
    have hrN : r.length = x0.length := hxu r hr
    cases y with
    | flat l =>
      obtain ⟨a, l', rfl⟩ : ∃ a l', l = a :: l' := by
        cases l with
        | nil => simp [countColumns] at hyc
        | cons a l' => exact ⟨a, l', rfl⟩
      have hyc' : yc = (a :: l').length := by
        simpa [countColumns] using hyc.symm
      have h1 : countRows (.flat (a :: l')) = 1 := rfl
      rw [h1] at hNrows
      exact innerproduct_flat (by simp) (by omega) (by omega)
    | nested yrows =>
      obtain ⟨y0, yrest, rfl⟩ : ∃ y0 yrest, yrows = y0 :: yrest := by
        cases yrows with
        | nil => simp [countColumns] at hyc
        | cons r rs => exact ⟨r, rs, rfl⟩
      have hyc' : yc = y0.length := by simpa [countColumns] using hyc.symm
      have hyu : ∀ q ∈ y0 :: yrest, q.length = yc := by
        simp only [construct] at hy
        split_ifs at hy with hlen hbad
        intro q hq
        by_contra hne
        refine hbad ⟨?_, List.any_eq_true.mpr ⟨q, hq, ?_⟩⟩
        · simp only [List.headD_cons]
          omega
        · simp only [List.headD_cons, decide_eq_true_eq]
          omega
      have hylen : countRows (.nested (y0 :: yrest)) = (y0 :: yrest).length := rfl
      rw [hylen] at hNrows
      exact innerproduct_nested (by simp) hyu hj (by omega)
  -- unfold Multiply
  have h2' : 2 ≤ xrest.length + 1 := by simpa using h2
  have hcr : countRows (.nested (x0 :: xrest)) = xrest.length + 1 := by
    simp [countRows]
  have hR1 : countRows (.nested (x0 :: xrest)) ≠ 1 := by
    rw [hcr]; omega
  simp only [Multiply, hm, hR1, if_false, hyc]
  have htempl : construct (.nested (List.replicate (countRows (.nested (x0 :: xrest)))
      (List.replicate yc (0 : Int)))) =
      .ok (.nested (List.replicate (countRows (.nested (x0 :: xrest)))
        (List.replicate yc (0 : Int)))) := by
    refine construct_ok_of_uniform yc ?_ ?_
    · rw [List.length_replicate, hcr]; omega
    · intro r hr
      rw [List.eq_of_mem_replicate hr]
      exact List.length_replicate _ _
  rw [htempl]
  -- the inner row computation
  have hrow : ∀ i, i < (x0 :: xrest).length →
      (match (x0 :: xrest).get? i with
        | some xrow => multiplyRow y xrow (List.replicate yc (0 : Int))
        | none => Except.error JsErr.undefinedAccess) =
      .ok ((List.range yc).map (fun j =>
        dotSpec ((x0 :: xrest).getD i []) (specCol y j))) := by
    intro i hi
    rw [get?_eq_some_getD [] _ i hi]
    have hmem : (x0 :: xrest).getD i [] ∈ x0 :: xrest := by
      have := List.getD_eq_getElem (x0 :: xrest) [] hi
      rw [this]
      exact List.getElem_mem _
    have hne : ¬((x0 :: xrest).getD i []).isEmpty := by
      rw [List.isEmpty_iff]
      intro hemp
      have := hxu _ hmem
      rw [hemp] at this
      simp only [List.length_nil] at this
      omega
    simp only [multiplyRow, hne, Bool.false_eq_true, if_false]
    have := mapWithIdxM_replicate
      (fun j _ => innerproduct ((x0 :: xrest).getD i []) y j)
      (fun j => dotSpec ((x0 :: xrest).getD i []) (specCol y j))
      (0 : Int) yc 0
      (fun j _ hj => hip _ hmem j (by omega))
    rw [this, List.range'_eq_map_range]
    simp
  -- the outer map over the template rows
  have houter := mapWithIdxM_replicate
    (fun i _zrow =>
      match (x0 :: xrest).get? i with
      | some xrow => multiplyRow y xrow _zrow
      | none => Except.error JsErr.undefinedAccess)
    (fun i => (List.range yc).map (fun j =>
      dotSpec ((x0 :: xrest).getD i []) (specCol y j)))
    (List.replicate yc (0 : Int)) (countRows (.nested (x0 :: xrest))) 0
    (fun i _ hi => hrow i (by simpa [countRows] using hi))
  have hrange : (List.range' 0 (countRows (.nested (x0 :: xrest)))).map
      (fun i => (List.range yc).map fun j =>
        dotSpec ((x0 :: xrest).getD i []) (specCol y j)) =
      (x0 :: xrest).map (fun r =>
        (List.range yc).map fun j => dotSpec r (specCol y j)) := by
    rw [List.range'_eq_map_range, List.map_map]
    have hcrl : countRows (.nested (x0 :: xrest)) = (x0 :: xrest).length := rfl
    rw [hcrl]
    rw [← range_map_getD ([] : List Int)
      (fun r => (List.range yc).map fun j => dotSpec r (specCol y j)) (x0 :: xrest)]
    apply List.map_congr_left
    intro i _
    simp
  rw [houter, hrange]
  exact construct_ok_of_uniform yc
    (by simp only [List.length_map, List.length_cons]; omega)
    (by intro r hr
        obtain ⟨q, _, rfl⟩ := List.mem_map.mp hr
        simp)

/-- Witness for C6: the 2×2 identity times `[[2,3],[4,5]]`, through the
general theorem. -/
theorem C6_rectangular_multiply_witness :
    Multiply (.nested [[1, 0], [0, 1]]) (.nested [[2, 3], [4, 5]]) =
      .ok (.nested [[2, 3], [4, 5]]) := by
  have h := C6_rectangular_multiply.1 [[1, 0], [0, 1]] (.nested [[2, 3], [4, 5]]) 2
    (by decide) (by decide) (by decide) (by decide) (by decide)
  rw [h]
  decide

/-! Helper lemmas for the rendering theorem. -/

theorem digitChar_ne_close (m : Nat) : Nat.digitChar m ≠ ']' := by
  rcases Nat.lt_or_ge m 16 with h | h
  · interval_cases m <;> decide
  · have hstar : Nat.digitChar m = '*' := by
      unfold Nat.digitChar
      repeat rw [if_neg (by omega)]
    rw [hstar]
    decide

theorem toDigitsCore_chars :
    ∀ (fuel n : Nat) (ds : List Char) (c : Char),
      c ∈ Nat.toDigitsCore 10 fuel n ds → c ∈ ds ∨ ∃ m, c = Nat.digitChar m := by
  intro fuel
  induction fuel with
  | zero => intro n ds c hc; exact Or.inl (by simpa [Nat.toDigitsCore] using hc)
  | succ fuel ih =>
    intro n ds c hc
    simp only [Nat.toDigitsCore] at hc
    split_ifs at hc with h
    · rcases List.mem_cons.mp hc with h1 | h2
      · exact Or.inr ⟨n % 10, h1⟩
      · exact Or.inl h2
    · rcases ih (n / 10) ((n % 10).digitChar :: ds) c hc with h1 | h2
      · rcases List.mem_cons.mp h1 with h3 | h4
        · exact Or.inr ⟨n % 10, h3⟩
        · exact Or.inl h4
      · exact Or.inr h2

theorem intStr_no_close (x : Int) : ∀ c ∈ (intStr x).data, c ≠ ']' := by
  have hd : ∀ n : Nat, ∀ c ∈ (Nat.repr n).data, c = '-' ∨ ∃ m, c = Nat.digitChar m := by
    intro n c hc
    right
    have hdata : (Nat.repr n).data = Nat.toDigits 10 n := rfl
    rw [hdata] at hc
    rcases toDigitsCore_chars (n + 1) n [] c hc with h | h
    · simp at h
    · exact h
  intro c hc
  have hcs : c = '-' ∨ ∃ m, c = Nat.digitChar m := by
    cases x with
    | ofNat m => exact hd m c hc
    | negSucc m =>
      have hrepr : (intStr (Int.negSucc m)).data = '-' :: (Nat.repr (m + 1)).data := by
        show (("-" : String) ++ Nat.repr (m + 1)).data = _
        rw [String.data_append]
        rfl
      rw [hrepr] at hc
      rcases List.mem_cons.mp hc with h | h
      · exact Or.inl h
      · exact hd _ c h
  rcases hcs with h | ⟨m, h⟩
  · subst h; decide
  · subst h; exact digitChar_ne_close m

theorem padStart_chars (s : String) (n : Nat) :
    ∀ c ∈ (padStart s n).data, c ∈ s.data ∨ c = ' ' := by
  intro c hc
  unfold padStart at hc
  split_ifs at hc with h
  · exact Or.inl hc
  · rw [String.data_append] at hc
    rcases List.mem_append.mp hc with h1 | h1
    · exact Or.inr (List.eq_of_mem_replicate h1)
    · exact Or.inl h1

theorem joinWith_chars (sep : String) :
    ∀ (ss : List String) (c : Char), c ∈ (joinWith sep ss).data →
      (∃ s ∈ ss, c ∈ s.data) ∨ c ∈ sep.data := by
  intro ss
  induction ss with
  | nil => intro c hc; simp [joinWith] at hc
  | cons s rest ih =>
    intro c hc
    cases rest with
    | nil => exact Or.inl ⟨s, List.mem_cons_self s [], hc⟩
    | cons s2 r2 =>
      have hjw : joinWith sep (s :: s2 :: r2) = s ++ sep ++ joinWith sep (s2 :: r2) := rfl
      rw [hjw, String.data_append, String.data_append] at hc
      rcases List.mem_append.mp hc with h1 | h1
      · rcases List.mem_append.mp h1 with h2 | h2
        · exact Or.inl ⟨s, List.mem_cons_self s _, h2⟩
        · exact Or.inr h2
      · rcases ih c h1 with ⟨t, ht, hct⟩ | h2
        · exact Or.inl ⟨t, List.mem_cons_of_mem s ht, hct⟩
        · exact Or.inr h2

theorem mapWithIndex_mem {α β : Type} (f : Nat → α → β) :
    ∀ (l : List α) (i₀ : Nat) (b : β), b ∈ mapWithIndex f i₀ l →
      ∃ i a, a ∈ l ∧ b = f i a := by
  intro l
  induction l with
  | nil => intro i₀ b hb; simp [mapWithIndex] at hb
  | cons a l ih =>
    intro i₀ b hb
    rcases List.mem_cons.mp hb with h | h
    · exact ⟨i₀, a, List.mem_cons_self a l, h⟩
    · obtain ⟨i, a2, ha2, hb2⟩ := ih (i₀ + 1) b h
      exact ⟨i, a2, List.mem_cons_of_mem a ha2, hb2⟩

theorem mapWithIndex_congr {α β : Type} (f g : Nat → α → β) :
    ∀ (l : List α) (i₀ : Nat),
      (∀ i a, i₀ ≤ i → i < i₀ + l.length → a ∈ l → f i a = g i a) →
      mapWithIndex f i₀ l = mapWithIndex g i₀ l := by
  intro l
  induction l with
  | nil => intro i₀ _; rfl
  | cons a l ih =>
    intro i₀ h
    simp only [mapWithIndex]
    rw [h i₀ a (Nat.le_refl _) (by simp) (List.mem_cons_self a l),
      ih (i₀ + 1) (fun i b h1 h2 hb =>
        h i b (by omega) (by simp only [List.length_cons]; omega)
          (List.mem_cons_of_mem a hb))]

theorem foldl_congr_mem {α β : Type} :
    ∀ (l : List α) (f g : β → α → β) (a : β),
      (∀ b, ∀ x ∈ l, f b x = g b x) → l.foldl f a = l.foldl g a := by
  intro l
  induction l with
  | nil => intro f g a _; rfl
  | cons x l ih =>
    intro f g a h
    simp only [List.foldl_cons]
    rw [h a x (List.mem_cons_self x l)]
    exact ih f g _ (fun b q hq => h b q (List.mem_cons_of_mem x hq))

theorem replaceBreak_cons_ne (c : Char) (l : List Char) (hc : c ≠ ']') :
    replaceBreak (c :: l) = c :: replaceBreak l := by
  cases l with
  | nil => rfl
  | cons c2 l2 =>
    simp only [replaceBreak]
    rw [if_neg (fun h => hc h.1)]

theorem replaceBreak_append_no_close :
    ∀ (xs ys : List Char), (∀ c ∈ xs, c ≠ ']') →
      replaceBreak (xs ++ ys) = xs ++ replaceBreak ys := by
  intro xs
  induction xs with
  | nil => intro ys _; rfl
  | cons c xs ih =>
    intro ys h
    rw [List.cons_append, replaceBreak_cons_ne c _ (h c (List.mem_cons_self c xs)),
      ih ys (fun d hd => h d (List.mem_cons_of_mem c hd))]
    rfl

theorem replaceBreak_close_open (ys : List Char) :
    replaceBreak (']' :: '[' :: ys) = ']' :: '\n' :: '[' :: replaceBreak ys := by
  simp [replaceBreak]

theorem replaceBreak_blocks :
    ∀ (inners : List (List Char)), (∀ inn ∈ inners, ∀ c ∈ inn, c ≠ ']') →
      replaceBreak ((inners.map blockCh).flatten) = sepLines (inners.map blockCh) := by
  intro inners
  induction inners with
  | nil => intro _; rfl
  | cons inn rest ih =>
    intro h
    have hinn : ∀ c ∈ inn, c ≠ ']' := h inn (List.mem_cons_self inn rest)
    have hpre : ∀ c ∈ ('[' :: ' ' :: (inn ++ [' '])), c ≠ ']' := by
      intro c hc
      rcases List.mem_cons.mp hc with rfl | hc
      · decide
      rcases List.mem_cons.mp hc with rfl | hc
      · decide
      rcases List.mem_append.mp hc with hc | hc
      · exact hinn c hc
      · have : c = ' ' := by simpa using hc
        subst this; decide
    cases rest with
    | nil =>
      have hb : blockCh inn = ('[' :: ' ' :: (inn ++ [' '])) ++ [']'] := by
        simp [blockCh]
      have hflat : (([inn] : List (List Char)).map blockCh).flatten = blockCh inn := by
        simp
      rw [hflat, hb, replaceBreak_append_no_close _ _ hpre]
      show ('[' :: ' ' :: (inn ++ [' '])) ++ [']'] = sepLines (List.map blockCh [inn])
      rw [← hb]
      rfl
    | cons inn2 rest2 =>
      have ih' := ih (fun q hq => h q (List.mem_cons_of_mem inn hq))
      have hhead : ((inn2 :: rest2).map blockCh).flatten =
          '[' :: (' ' :: (inn2 ++ [' ', ']']) ++ (rest2.map blockCh).flatten) := by
        simp [blockCh, List.flatten_cons]
      rw [List.map_cons, List.flatten_cons]
      have hsplit : blockCh inn ++ ((inn2 :: rest2).map blockCh).flatten =
          ('[' :: ' ' :: (inn ++ [' '])) ++
            (']' :: ((inn2 :: rest2).map blockCh).flatten) := by
        simp [blockCh]
      rw [hsplit, replaceBreak_append_no_close _ _ hpre, hhead,
        replaceBreak_close_open]
      have hih2 : '[' :: replaceBreak (' ' :: (inn2 ++ [' ', ']']) ++
          (rest2.map blockCh).flatten) = sepLines ((inn2 :: rest2).map blockCh) := by
        rw [← replaceBreak_cons_ne '[' _ (by decide), ← hhead]
        exact ih'
      have hsep : sepLines (blockCh inn :: (inn2 :: rest2).map blockCh) =
          blockCh inn ++ '\n' :: sepLines ((inn2 :: rest2).map blockCh) := by
        rfl
      rw [hsep, ← hih2]
      simp [blockCh]

theorem foldl_append_data (g : List Int → String) :
    ∀ (rows : List (List Int)) (acc : String),
      (rows.foldl (fun out r => out ++ g r) acc).data =
        acc.data ++ (rows.map (fun r => (g r).data)).flatten := by
  intro rows
  induction rows with
  | nil => intro acc; simp
  | cons r rows ih =>
    intro acc
    simp only [List.foldl_cons, List.map_cons, List.flatten_cons]
    rw [ih, String.data_append, List.append_assoc]

theorem joinWith_newline_data : ∀ (ss : List String),
    (joinWith "\n" ss).data = sepLines (ss.map String.data) := by
  intro ss
  induction ss with
  | nil => rfl
  | cons s rest ih =>
    cases rest with
    | nil => rfl
    | cons s2 r2 =>
      show (s ++ "\n" ++ joinWith "\n" (s2 :: r2)).data =
        s.data ++ '\n' :: sepLines ((s2 :: r2).map String.data)
      rw [String.data_append, String.data_append, ih]
      simp

theorem padding_getD {rows : List (List Int)} {N i : Nat} (h0 : rows ≠ [])
    (hu : ∀ r ∈ rows, r.length = N) (hi : i < N) :
    ((unzip rows).map (fun column =>
      column.foldl (fun length x => max (entryWidth x) length) 0)).getD i 0 =
      colWidthSpec rows i := by
  unfold unzip
  rw [maxLen_uniform h0 hu, List.map_map]
  have hgd : ∀ (l : List Nat) (k : Nat), l.getD k 0 = (l.get? k).getD 0 :=
    fun _ _ => rfl
  rw [hgd, List.get?_map, List.get?_range hi]
  simp only [Option.map_some', Option.getD_some, Function.comp]
  rw [List.foldl_map]
  unfold colWidthSpec
  apply foldl_congr_mem
  intro b r hr
  rw [get?_eq_some_getD 0 r i (by rw [hu r hr]; exact hi)]
  rfl

/-- C8: a row vector renders as its elements joined by single spaces inside
brackets with no padding; a rectangular matrix (uniform rows, two or more
of them) renders one bracketed line per row, newline-separated, with each
entry left-padded to the maximum decimal-text width of its own column; the
two concrete examples of the specification evaluate as claimed. -/
theorem C8_render :
    (∀ l : List Int, l ≠ [] →
      render (.flat l) = "[ " ++ joinWith " " (l.map intStr) ++ " ]") ∧
    (∀ rows : List (List Int), 2 ≤ rows.length →
      (∀ r ∈ rows, r.length = (rows.headD []).length) →
      render (.nested rows) = joinWith "\n" (rows.map (fun row =>
        "[ " ++ joinWith " "
          (mapWithIndex (fun j x => padStart (intStr x) (colWidthSpec rows j)) 0 row)
          ++ " ]"))) ∧
    render (.flat [1, 2, 3]) = "[ 1 2 3 ]" ∧
    render (.nested [[1, 2, 3], [-10, 11, -12], [100, 0, 0]]) =
      "[   1  2   3 ]\n[ -10 11 -12 ]\n[ 100  0   0 ]" := by
  refine ⟨?_, ?_, by decide, by decide⟩
  · intro l hl
    obtain ⟨a, l', rfl⟩ : ∃ a l', l = a :: l' := by
      cases l with
      | nil => exact absurd rfl hl
      | cons a l' => exact ⟨a, l', rfl⟩
    rfl
  · intro rows h2 hu
    have hcr1 : countRows (.nested rows) ≠ 1 := by
      simp only [countRows]
      omega
    have h0 : rows ≠ [] := by
      cases rows with
      | nil => simp at h2
      | cons r rs => simp
    simp only [render, hcr1, if_false]
    apply String.ext
    show replaceBreak (rows.foldl _ "").data = _
    have hline : ∀ r ∈ rows,
        ("[ " ++ joinWith " " (mapWithIndex (fun i x => padStart (intStr x)
          (((unzip rows).map (fun column =>
            column.foldl (fun length x => max (entryWidth x) length) 0)).getD i 0))
          0 r) ++ " ]") =
        ("[ " ++ joinWith " " (mapWithIndex (fun j x => padStart (intStr x)
          (colWidthSpec rows j)) 0 r) ++ " ]") := by
      intro r hr
      refine congrArg (fun s => "[ " ++ s ++ " ]") (congrArg (joinWith " ") ?_)
      apply mapWithIndex_congr
      intro i a h1 h2' _
      rw [padding_getD h0 hu (by rw [← hu r hr]; omega)]
    have hbody : rows.foldl (fun output row => output ++ ("[ " ++ joinWith " "
        (mapWithIndex (fun i x => padStart (intStr x)
          (((unzip rows).map (fun column =>
            column.foldl (fun length x => max (entryWidth x) length) 0)).getD i 0))
          0 row) ++ " ]")) "" =
        rows.foldl (fun output row => output ++ ("[ " ++ joinWith " "
          (mapWithIndex (fun j x => padStart (intStr x) (colWidthSpec rows j))
            0 row) ++ " ]")) "" := by
      apply foldl_congr_mem
      intro b r hr
      rw [hline r hr]
    rw [hbody, foldl_append_data (fun row => "[ " ++ joinWith " "
      (mapWithIndex (fun j x => padStart (intStr x) (colWidthSpec rows j))
        0 row) ++ " ]") rows ""]
    have hblock : ∀ r : List Int,
        ("[ " ++ joinWith " " (mapWithIndex (fun j x => padStart (intStr x)
          (colWidthSpec rows j)) 0 r) ++ " ]").data =
        blockCh (joinWith " " (mapWithIndex (fun j x => padStart (intStr x)
          (colWidthSpec rows j)) 0 r)).data := by
      intro r
      rw [String.data_append, String.data_append]
      simp [blockCh]
    have hmap : rows.map (fun r => ("[ " ++ joinWith " "
        (mapWithIndex (fun j x => padStart (intStr x) (colWidthSpec rows j))
          0 r) ++ " ]").data) =
        (rows.map (fun r => (joinWith " " (mapWithIndex (fun j x =>
          padStart (intStr x) (colWidthSpec rows j)) 0 r)).data)).map blockCh := by
      rw [List.map_map]
      apply List.map_congr_left
      intro r _
      exact hblock r
    rw [show (("" : String)).data = ([] : List Char) from rfl, List.nil_append,
      hmap]
    rw [replaceBreak_blocks _ ?side]
    case side =>
      intro inn hinn c hc
      obtain ⟨r, _, rfl⟩ := List.mem_map.mp hinn
      rcases joinWith_chars " " _ c hc with ⟨s, hs, hcs⟩ | hsep
      · obtain ⟨i, a, _, rfl⟩ := mapWithIndex_mem _ _ _ _ hs
        rcases padStart_chars _ _ c hcs with h | h
        · exact intStr_no_close a c h
        · subst h; decide
      · have : c = ' ' := by simpa using hsep
        subst this; decide
    rw [joinWith_newline_data, List.map_map]
    congr 1
    rw [List.map_map]
    apply List.map_congr_left
    intro r _
    exact (hblock r).symm

/-- Witness for C8: both general parts applied at concrete inputs. -/
theorem C8_render_witness :
    render (.flat [7]) = "[ 7 ]" ∧
      render (.nested [[5], [10]]) = "[  5 ]\n[ 10 ]" := by
  constructor
  · have h := C8_render.1 [7] (by decide)
    rw [h]
    decide
  · have h := C8_render.2.1 [[5], [10]] (by decide) (by decide)
    rw [h]
    decide

end SmockleMatrix
